import Mathlib

/-!
Verification development for the batched stream-scanning core of the
repository: the `encoding` functional options, the `xstreamencoding`
`BatchHelper` and `ScannerHelper` (newline Line Scanner), and the
`textencodingextension` custom-delimiter decoder (`NewLogsDecoder`,
`UnmarshalLogs`, `MarshalLogs`).

Modelling conventions:
* byte streams are `List Nat` (one entry per byte, values < 256 in practice);
* Go `int64` fields are `Int` (overflow is an out-of-scope numeric limit);
* the only read error of an in-memory source is clean exhaustion, so the
  error channel of a scan is a single end-of-stream Boolean (`io.EOF`);
* a Go `nil` byte slice is `Option.none` where the code distinguishes it;
* `bytes.TrimSpace` is modelled on its ASCII fast path (the bytes the
  claims involve are all ASCII; Go handles multi-byte Unicode spaces in a
  slow path outside this byte-level model).
-/

namespace StreamCore

/-! ### encoding: DecoderOptions and functional options (extension/encoding) -/

/-- Mirror of `encoding.DecoderOptions`: flush thresholds and initial offset. -/
structure DecoderOptions where
  FlushBytes : Int
  FlushItems : Int
  Offset : Int
  deriving Repr, DecidableEq

/-- Mirror of `encoding.DecoderOption`: a functional option mutating one field. -/
def DecoderOption := DecoderOptions → DecoderOptions

/-- Mirror of `encoding.defaultFlushBytes` (1 MiB). -/
def defaultFlushBytes : Int := 1024 * 1024

/-- Mirror of `encoding.defaultFlushItems`. -/
def defaultFlushItems : Int := 1000

/-- Mirror of `encoding.NewDecoderOptions`: defaults, then the option list
applied in order (later options override earlier ones). -/
def NewDecoderOptions (opts : List DecoderOption) : DecoderOptions :=
  opts.foldl (fun o f => f o)
    { FlushBytes := defaultFlushBytes, FlushItems := defaultFlushItems, Offset := 0 }

/-- Mirror of `encoding.WithFlushBytes`. -/
def WithFlushBytes (b : Int) : DecoderOption :=
  fun o => { o with FlushBytes := b }

/-- Mirror of `encoding.WithFlushItems`. -/
def WithFlushItems (i : Int) : DecoderOption :=
  fun o => { o with FlushItems := i }

/-- Mirror of `encoding.WithOffset`. -/
def WithOffset (offset : Int) : DecoderOption :=
  fun o => { o with Offset := offset }

/-! ### xstreamencoding: BatchHelper -/

/-- Mirror of `xstreamencoding.BatchHelper`: configured options plus the two
running counters. -/
structure BatchHelper where
  options : DecoderOptions
  currentBytes : Int
  currentItems : Int
  deriving Repr, DecidableEq

/-- Mirror of `xstreamencoding.NewBatchHelper`: counters start at zero. -/
def NewBatchHelper (opts : List DecoderOption) : BatchHelper :=
  { options := NewDecoderOptions opts, currentBytes := 0, currentItems := 0 }

/-- Mirror of `BatchHelper.IncrementBytes`. -/
def BatchHelper.IncrementBytes (sh : BatchHelper) (n : Int) : BatchHelper :=
  { sh with currentBytes := sh.currentBytes + n }

/-- Mirror of `BatchHelper.IncrementItems`. -/
def BatchHelper.IncrementItems (sh : BatchHelper) (n : Int) : BatchHelper :=
  { sh with currentItems := sh.currentItems + n }

/-- Mirror of `BatchHelper.ShouldFlush`: each enabled (strictly positive)
threshold is compared against its counter; either alone triggers. -/
def BatchHelper.ShouldFlush (sh : BatchHelper) : Bool :=
  if sh.options.FlushBytes > 0 ∧ sh.currentBytes ≥ sh.options.FlushBytes then
    true
  else if sh.options.FlushItems > 0 ∧ sh.currentItems ≥ sh.options.FlushItems then
    true
  else
    false

/-- Mirror of `BatchHelper.Reset`: zero both counters. -/
def BatchHelper.Reset (sh : BatchHelper) : BatchHelper :=
  { sh with currentBytes := 0, currentItems := 0 }

/-- An interleaving step of counter increments (the only mutating calls a
caller interleaves between flush checks). -/
inductive BatchOp where
  | incBytes (n : Int)
  | incItems (n : Int)

/-- Apply an arbitrary interleaving of increment calls to a `BatchHelper`. -/
def applyOps (ops : List BatchOp) (sh : BatchHelper) : BatchHelper :=
  ops.foldl
    (fun b op =>
      match op with
      | .incBytes n => b.IncrementBytes n
      | .incItems n => b.IncrementItems n)
    sh

/-! ### xstreamencoding: ScannerHelper (newline Line Scanner) -/

/-- The ASCII fast-path space set of `bytes.TrimSpace`:
tab, newline, vertical tab, form feed, carriage return, space. -/
def isAsciiSpace (b : Nat) : Bool :=
  b == 9 || b == 10 || b == 11 || b == 12 || b == 13 || b == 32

/-- Drop leading ASCII space bytes. -/
def trimLeft : List Nat → List Nat
  | [] => []
  | b :: rest => if isAsciiSpace b then trimLeft rest else b :: rest

/-- Drop trailing ASCII space bytes. -/
def trimRight (l : List Nat) : List Nat :=
  (trimLeft l.reverse).reverse

/-- Mirror of `bytes.TrimSpace` on its ASCII fast path. -/
def trimSpace (l : List Nat) : List Nat :=
  trimRight (trimLeft l)

/-- Mirror of `bufio.Reader.ReadBytes('\n')` over an in-memory stream:
returns the bytes read up to and including the first newline (byte 10),
the remaining stream, and whether the source was exhausted before a
newline was found (the `io.EOF` case of `ReadBytes`). -/
def readLine : List Nat → List Nat × List Nat × Bool
  | [] => ([], [], true)
  | b :: rest =>
    if b = 10 then ([10], rest, false)
    else
      let r := readLine rest
      (b :: r.1, r.2.1, r.2.2)

/-- Mirror of `xstreamencoding.ScannerHelper`: the batch tracker, the
remaining bytes of the buffered reader, and the running offset. -/
structure ScannerHelper where
  batchHelper : BatchHelper
  stream : List Nat
  offset : Int
  deriving Repr, DecidableEq

/-- Mirror of `xstreamencoding.NewScannerHelper` over an in-memory source.
When `options.Offset` is non-zero, `bufio.Reader.Discard` must succeed:
it errors when the offset is negative (`ErrNegativeCount`) or exceeds the
available input (short discard), in which case construction fails. -/
def NewScannerHelper (input : List Nat) (opts : List DecoderOption) :
    Option ScannerHelper :=
  let batchHelper := NewBatchHelper opts
  let off := batchHelper.options.Offset
  if off = 0 then
    some { batchHelper := batchHelper, stream := input, offset := off }
  else if 0 ≤ off ∧ off ≤ (input.length : Int) then
    some { batchHelper := batchHelper, stream := input.drop off.toNat, offset := off }
  else
    none

/-- Mirror of `ScannerHelper.scanInternal`. The result is
(record, flush, endOfStream, new state): `record = none` is Go's `nil`
slice of the clean-exhaustion branch, `endOfStream` is the `io.EOF`
error value (the only read error an in-memory source produces). -/
def scanInternal (h : ScannerHelper) : Option (List Nat) × Bool × Bool × ScannerHelper :=
  let r := readLine h.stream
  let b := r.1
  let rest := r.2.1
  let isEOF := r.2.2
  if b.length = 0 ∧ isEOF then
    (none, true, true, h)
  else
    let offset := h.offset + (b.length : Int)
    let bh := (h.batchHelper.IncrementBytes (b.length : Int)).IncrementItems 1
    let flushed := bh.ShouldFlush
    let bh2 := if flushed then bh.Reset else bh
    let trimmed := trimSpace b
    (some trimmed, flushed, isEOF, { batchHelper := bh2, stream := rest, offset := offset })

/-- Mirror of `ScannerHelper.ScanBytes`: delegates to `scanInternal` and
returns an independently-owned copy of the bytes when they are non-nil
(copying is the identity on immutable lists). -/
def ScanBytes (h : ScannerHelper) : Option (List Nat) × Bool × Bool × ScannerHelper :=
  let r := scanInternal h
  match r.1 with
  | some bs => (some bs, r.2.1, r.2.2.1, r.2.2.2)
  | none => (none, r.2.1, r.2.2.1, r.2.2.2)

/-- The string conversion `string(b)` used by `ScanString`, as an injective
map from byte lists to strings (a Go `nil` slice converts to `""`). -/
def bytesToString (bs : List Nat) : String :=
  String.mk (bs.map Char.ofNat)

/-- Mirror of `ScannerHelper.ScanString`: delegates to `scanInternal` and
converts the returned bytes (possibly nil) to a string. -/
def ScanString (h : ScannerHelper) : String × Bool × Bool × ScannerHelper :=
  let r := scanInternal h
  (bytesToString (r.1.getD []), r.2.1, r.2.2.1, r.2.2.2)

/-- Mirror of `ScannerHelper.Offset`. -/
def ScannerHelper.Offset (h : ScannerHelper) : Int :=
  h.offset

/-- State after `n` consecutive `scanInternal` calls. -/
def scanN (h : ScannerHelper) : Nat → ScannerHelper
  | 0 => h
  | n + 1 => scanN (scanInternal h).2.2.2 n

/-- The outputs (record, flush, endOfStream) of `n` consecutive scans. -/
def scanOutputs (h : ScannerHelper) : Nat → List (Option (List Nat) × Bool × Bool)
  | 0 => []
  | n + 1 =>
    let r := scanInternal h
    (r.1, r.2.1, r.2.2.1) :: scanOutputs r.2.2.2 n

/-- The newline-terminated chunks of a stream, i.e. the successive raw
reads `ReadBytes('\n')` performs until exhaustion (the last chunk may
lack the trailing newline). -/
def lineChunks : List Nat → List (List Nat)
  | [] => []
  | b :: rest =>
    if b = 10 then [10] :: lineChunks rest
    else
      match lineChunks rest with
      | [] => [[b]]
      | c :: cs => (b :: c) :: cs

/-! ### textencodingextension: custom-delimiter decoder and marshaler

A split function takes the running offset tracker, the buffered data and
the at-end flag, and returns (new offset, advance, token); `token = none`
is Go's `nil` token (request more data / no final token), while
`token = some []` is an empty but non-nil token that `bufio.Scanner`
surfaces to the caller. -/

/-- A matcher abstracting `regexp.Regexp.FindIndex`: the start and end of
the leftmost match in the data, or `none` when there is no match. -/
def Matcher := List Nat → Option (Nat × Nat)

/-- First-match search for a literal separator, a concrete `Matcher`
(`regexp.FindIndex` for a literal pattern). -/
def findIndexLit (pat : List Nat) : Matcher :=
  fun data =>
    let rec go : List Nat → Nat → Option (Nat × Nat)
      | [], i => if pat = [] then some (i, i) else none
      | d :: ds, i =>
        if pat.isPrefixOf (d :: ds) then some (i, i + pat.length)
        else go ds (i + 1)
    go data 0

/-- Mirror of the pattern-mode split closure installed by
`textLogCodec.NewLogsDecoder` when `unmarshalingSeparator` is non-nil. -/
def patternSplit (find : Matcher) (off : Int) (data : List Nat) (atEOF : Bool) :
    Int × Nat × Option (List Nat) :=
  if atEOF ∧ data = [] then
    (off, 0, none)
  else
    match find data with
    | some loc => (off + (loc.2 : Int), loc.2, some (data.take loc.1))
    | none =>
      if atEOF then (off + (data.length : Int), data.length, some data)
      else (off, 0, none)

/-- Mirror of the whole-remainder split closure installed by
`textLogCodec.NewLogsDecoder` when no separator is configured. -/
def wholeSplit (off : Int) (data : List Nat) (atEOF : Bool) :
    Int × Nat × Option (List Nat) :=
  if atEOF ∧ data = [] then
    (off, 0, none)
  else if atEOF then
    (off + (data.length : Int), data.length, some data)
  else
    (off, 0, none)

/-- The split-function type threaded through the scanner model. -/
def SplitFunc := Int → List Nat → Bool → Int × Nat × Option (List Nat)

/-- Model of a `bufio.Scanner` whose source is a fully-available in-memory
byte sequence: the bytes not yet consumed by token advances, whether the
reader has already reported exhaustion, and whether scanning is finished. -/
structure GoScanner where
  rem : List Nat
  atEOF : Bool
  done : Bool
  deriving Repr, DecidableEq

/-- One `bufio.Scanner.Scan` call over an in-memory source: the split
function sees all remaining data; when it requests more data and the
source is exhausted it is re-invoked with the at-end flag set; a `nil`
token at end terminates the scan. -/
def scanStep (split : SplitFunc) (off : Int) (sc : GoScanner) :
    Option (List Nat) × Int × GoScanner :=
  if sc.done then
    (none, off, sc)
  else
    let r := split off sc.rem sc.atEOF
    match r.2.2 with
    | some t => (some t, r.1, { rem := sc.rem.drop r.2.1, atEOF := sc.atEOF, done := false })
    | none =>
      if sc.atEOF then
        (none, r.1, { rem := sc.rem, atEOF := true, done := true })
      else
        let r2 := split r.1 sc.rem true
        match r2.2.2 with
        | some t => (some t, r2.1, { rem := sc.rem.drop r2.2.1, atEOF := true, done := false })
        | none => (none, r2.1, { rem := sc.rem, atEOF := true, done := true })

/-- Result of one decode call: accumulated record bodies, offset tracker,
scanner state, batch tracker, and whether the loop ran to completion
(`false` only when the explicit fuel bound was exhausted, an artifact of
the shallow embedding; real callers panic on non-progressing splits). -/
structure DecodeResult where
  records : List String
  off : Int
  sc : GoScanner
  bh : BatchHelper
  completed : Bool
  deriving Repr, DecidableEq

/-- Mirror of the `for s.Scan()` loop body of `decodeF`: every token is
appended to the batch (after the per-record transformation), the tracker
is incremented by one item and the token's pre-transformation byte
length, and a positive flush check resets the tracker and returns the
batch immediately. -/
def decodeLoop (transform : List Nat → String) (split : SplitFunc) :
    Nat → Int → GoScanner → BatchHelper → List String → DecodeResult
  | 0, off, sc, bh, acc => ⟨acc, off, sc, bh, false⟩
  | fuel + 1, off, sc, bh, acc =>
    let r := scanStep split off sc
    match r.1 with
    | none => ⟨acc, r.2.1, r.2.2, bh, true⟩
    | some tok =>
      let acc := acc ++ [transform tok]
      let bh := (bh.IncrementItems 1).IncrementBytes (tok.length : Int)
      if bh.ShouldFlush then ⟨acc, r.2.1, r.2.2, bh.Reset, true⟩
      else decodeLoop transform split fuel r.2.1 r.2.2 bh acc

/-- Mirror of one `decodeF` call (`DecodeLogs`): run the scan loop, then
return `io.EOF` (second component `true`) exactly when the batch is empty. -/
def decodeF (transform : List Nat → String) (split : SplitFunc)
    (fuel : Nat) (off : Int) (sc : GoScanner) (bh : BatchHelper) :
    DecodeResult × Bool :=
  let r := decodeLoop transform split fuel off sc bh []
  (r, r.records.isEmpty)

/-- The tokens `decodeF` consumes during one call: one per loop iteration,
stopping with the token whose accounting triggers a flush, or when the
scanner yields no further token. -/
def loopTokens (split : SplitFunc) :
    Nat → Int → GoScanner → BatchHelper → List (List Nat)
  | 0, _, _, _ => []
  | fuel + 1, off, sc, bh =>
    let r := scanStep split off sc
    match r.1 with
    | none => []
    | some tok =>
      let bh := (bh.IncrementItems 1).IncrementBytes (tok.length : Int)
      if bh.ShouldFlush then [tok]
      else tok :: loopTokens split fuel r.2.1 r.2.2 bh

/-- The tracker evolution `decodeF` applies for a consumed token sequence:
per token one item and its byte length, with a reset when the flush
check fires. -/
def trackerAfter (bh : BatchHelper) (toks : List (List Nat)) : BatchHelper :=
  toks.foldl
    (fun b t =>
      let b := (b.IncrementItems 1).IncrementBytes (t.length : Int)
      if b.ShouldFlush then b.Reset else b)
    bh

/-- Mirror of `textLogCodec.UnmarshalLogs`: wrap the buffer as a stream,
build the decoder with `WithOffset(0)` and `WithFlushBytes(0)` (these are
the only options the code passes), and return the single `DecodeLogs`
call's batch (or its error). `find?` is the configured unmarshaling
separator, `none` meaning whole-remainder mode. -/
def UnmarshalLogs (find? : Option Matcher) (transform : List Nat → String)
    (fuel : Nat) (buf : List Nat) : Option (List String) × DecodeResult :=
  let bh := NewBatchHelper [WithOffset 0, WithFlushBytes 0]
  let split := match find? with
    | some find => patternSplit find
    | none => wholeSplit
  let r := decodeF transform split fuel 0 { rem := buf, atEOF := false, done := false } bh
  if r.2 then (none, r.1) else (some r.1.records, r.1)

/-- Mirror of `textLogCodec.MarshalLogs`. A `plog.Logs` value is modelled
as resource logs, each holding scope logs, each holding the bodies of its
log records as byte sequences (the `[]byte(lr.Body().AsString())` the code
appends); the separator bytes are appended before every record except the
first appended one, tracking the `appendedLogRecord` flag. -/
def MarshalLogs (sep : List Nat) (ld : List (List (List (List Nat)))) : List Nat :=
  (ld.foldl
    (fun acc rl =>
      rl.foldl
        (fun acc sl =>
          sl.foldl
            (fun acc body =>
              ((if acc.2 then acc.1 ++ sep else acc.1) ++ body, true))
            acc)
        acc)
    ([], false)).1

/-- The flattened record bodies of a modelled `plog.Logs` value, in
iteration order. -/
def flatRecords (ld : List (List (List (List Nat)))) : List (List Nat) :=
  (ld.map (fun rl => rl.flatten)).flatten

/-- Modelled from the spec: the claimed shape of marshaling output — the
record bodies concatenated with exactly one separator strictly between
consecutive records, none leading or trailing, the empty sequence for
zero records. To be compared with `MarshalLogs`. -/
def sepConcat (sep : List Nat) : List (List Nat) → List Nat
  | [] => []
  | [r] => r
  | r :: rest => r ++ sep ++ sepConcat sep rest

/-- Separator-prefixed concatenation, the tail shape of `sepConcat`. -/
def sepAll (sep : List Nat) (records : List (List Nat)) : List Nat :=
  (records.map (fun r => sep ++ r)).flatten

/-- Parallel recursion computing the final offset tracker, scanner state
and completion flag of `decodeLoop` without building the record batch. -/
def loopFinal (split : SplitFunc) :
    Nat → Int → GoScanner → BatchHelper → Int × GoScanner × Bool
  | 0, off, sc, _ => (off, sc, false)
  | fuel + 1, off, sc, bh =>
    let r := scanStep split off sc
    match r.1 with
    | none => (r.2.1, r.2.2, true)
    | some tok =>
      let bh := (bh.IncrementItems 1).IncrementBytes (tok.length : Int)
      if bh.ShouldFlush then (r.2.1, r.2.2, true)
      else loopFinal split fuel r.2.1 r.2.2 bh

/-- The construction/scan invariant of a Line Scanner session over a fixed
input: the offset is non-negative, within the input, and the unread
stream is exactly the input past the offset. -/
def StreamInv (input : List Nat) (h : ScannerHelper) : Prop :=
  0 ≤ h.offset ∧ h.offset.toNat ≤ input.length ∧ h.stream = input.drop h.offset.toNat

/-- The byte sequence of `"line1\nline2\nline3\n"`, the scenario input of
the repository's scanner tests. -/
def lines3 : List Nat :=
  [108, 105, 110, 101, 49, 10, 108, 105, 110, 101, 50, 10,
   108, 105, 110, 101, 51, 10]

/-- A buffer holding 1001 newline-terminated one-byte records `"a\n"`. -/
def recs1001 : List Nat :=
  (List.replicate 1001 [97, 10]).flatten

/-! ### Helper lemmas -/

theorem applyOps_options (ops : List BatchOp) (sh : BatchHelper) :
    (applyOps ops sh).options = sh.options := by
  induction ops generalizing sh with
  | nil => rfl
  | cons op ops ih =>
    cases op <;> simp [applyOps, List.foldl_cons] at ih ⊢ <;>
      exact ih _

theorem newDecoderOptions_concat (opts : List DecoderOption) (f : DecoderOption) :
    NewDecoderOptions (opts ++ [f]) = f (NewDecoderOptions opts) := by
  simp [NewDecoderOptions, List.foldl_append]

theorem readLine_append : ∀ s : List Nat, (readLine s).1 ++ (readLine s).2.1 = s
  | [] => rfl
  | b :: rest => by
    by_cases hb : b = 10
    · simp [readLine, hb]
    · simpa [readLine, hb] using readLine_append rest

theorem readLine_ne_nil {s : List Nat} (hs : s ≠ []) : (readLine s).1 ≠ [] := by
  cases s with
  | nil => exact absurd rfl hs
  | cons b rest =>
    by_cases hb : b = 10 <;> simp [readLine, hb]

theorem readLine_no_newline : ∀ s : List Nat, 10 ∉ s → readLine s = (s, [], true)
  | [], _ => rfl
  | b :: rest, hmem => by
    have hb : b ≠ 10 := fun h => hmem (h ▸ List.mem_cons_self b rest)
    have hrest : 10 ∉ rest := fun h => hmem (List.mem_cons_of_mem b h)
    simp [readLine, hb, readLine_no_newline rest hrest]

theorem readLine_newline : ∀ ws rest : List Nat, 10 ∉ ws →
    readLine (ws ++ 10 :: rest) = (ws ++ [10], rest, false)
  | [], rest, _ => by simp [readLine]
  | b :: ws, rest, hmem => by
    have hb : b ≠ 10 := fun h => hmem (h ▸ List.mem_cons_self b ws)
    have hws : 10 ∉ ws := fun h => hmem (List.mem_cons_of_mem b h)
    simp [readLine, hb, readLine_newline ws rest hws]

theorem trimLeft_all_space : ∀ l : List Nat, (∀ b ∈ l, isAsciiSpace b = true) →
    trimLeft l = []
  | [], _ => rfl
  | b :: rest, hall => by
    have hb := hall b (List.mem_cons_self b rest)
    have hrest : ∀ x ∈ rest, isAsciiSpace x = true :=
      fun x hx => hall x (List.mem_cons_of_mem b hx)
    simp [trimLeft, hb, trimLeft_all_space rest hrest]

theorem trimSpace_all_space (l : List Nat) (hall : ∀ b ∈ l, isAsciiSpace b = true) :
    trimSpace l = [] := by
  simp [trimSpace, trimRight, trimLeft_all_space l hall, trimLeft]

theorem lineChunks_cons (s : List Nat) (hs : s ≠ []) :
    lineChunks s = (readLine s).1 :: lineChunks (readLine s).2.1 := by
  induction s with
  | nil => exact absurd rfl hs
  | cons b rest ih =>
    by_cases hb : b = 10
    · simp [lineChunks, readLine, hb]
    · cases rest with
      | nil => simp [lineChunks, readLine, hb]
      | cons x xs =>
        have ihr := ih (by simp)
        rcases hr : readLine (x :: xs) with ⟨c, rem, eof⟩
        rw [hr] at ihr
        have h1 : readLine (b :: x :: xs) = (b :: c, rem, eof) := by
          rw [readLine.eq_2, if_neg hb, hr]
        rw [lineChunks.eq_2, if_neg hb, ihr, h1]

theorem scanInternal_nil (h : ScannerHelper) (hs : h.stream = []) :
    scanInternal h = (none, true, true, h) := by
  simp [scanInternal, hs, readLine]

theorem scanInternal_cons (h : ScannerHelper) (c rest : List Nat) (eof : Bool)
    (hr : readLine h.stream = (c, rest, eof)) (hc : c ≠ []) :
    scanInternal h =
      (some (trimSpace c),
       ((h.batchHelper.IncrementBytes (c.length : Int)).IncrementItems 1).ShouldFlush,
       eof,
       { batchHelper :=
           if ((h.batchHelper.IncrementBytes (c.length : Int)).IncrementItems 1).ShouldFlush then
             ((h.batchHelper.IncrementBytes (c.length : Int)).IncrementItems 1).Reset
           else
             (h.batchHelper.IncrementBytes (c.length : Int)).IncrementItems 1,
         stream := rest,
         offset := h.offset + (c.length : Int) }) := by
  have hlen : ¬(c.length = 0 ∧ eof = true) := by
    intro hand
    exact hc (List.length_eq_zero.mp hand.1)
  simp only [scanInternal, hr]
  split
  · next hcond => exact absurd (by simpa using hcond) hlen
  · rfl

theorem scanInternal_stream_eq (h1 h2 : ScannerHelper) (hs : h1.stream = h2.stream) :
    (scanInternal h1).1 = (scanInternal h2).1
    ∧ (scanInternal h1).2.2.1 = (scanInternal h2).2.2.1
    ∧ (scanInternal h1).2.2.2.stream = (scanInternal h2).2.2.2.stream := by
  by_cases hnil : h1.stream = []
  · rw [scanInternal_nil h1 hnil, scanInternal_nil h2 (hs ▸ hnil)]
    exact ⟨rfl, rfl, hs⟩
  · rcases hr : readLine h1.stream with ⟨c, rest, eof⟩
    have hc : c ≠ [] := by
      have := readLine_ne_nil hnil
      rw [hr] at this
      exact this
    rw [scanInternal_cons h1 c rest eof hr hc,
        scanInternal_cons h2 c rest eof (hs ▸ hr) hc]
    exact ⟨rfl, rfl, rfl⟩

theorem newScannerHelper_some (input : List Nat) (opts : List DecoderOption)
    (h0 : 0 ≤ (NewDecoderOptions opts).Offset)
    (hle : (NewDecoderOptions opts).Offset ≤ (input.length : Int)) :
    NewScannerHelper input opts =
      some { batchHelper := NewBatchHelper opts,
             stream := input.drop (NewDecoderOptions opts).Offset.toNat,
             offset := (NewDecoderOptions opts).Offset } := by
  by_cases hz : (NewDecoderOptions opts).Offset = 0
  · simp [NewScannerHelper, NewBatchHelper, hz]
  · simp [NewScannerHelper, NewBatchHelper, hz, h0, hle]

theorem newScannerHelper_inv (input : List Nat) (opts : List DecoderOption)
    (h : ScannerHelper) (hc : NewScannerHelper input opts = some h) :
    StreamInv input h ∧ h.offset = (NewDecoderOptions opts).Offset
      ∧ h.batchHelper = NewBatchHelper opts := by
  simp only [NewScannerHelper, NewBatchHelper] at hc
  split at hc
  · next hz =>
    rcases Option.some_injective _ hc with rfl
    refine ⟨⟨?_, ?_, ?_⟩, rfl, rfl⟩ <;> simp [hz]
  · split at hc
    · next hrange =>
      rcases Option.some_injective _ hc with rfl
      refine ⟨⟨hrange.1, ?_, ?_⟩, rfl, rfl⟩
      · simpa [Int.toNat_le] using hrange.2
      · simp
    · exact absurd hc (by simp)

theorem scanInternal_inv (input : List Nat) (h : ScannerHelper)
    (hi : StreamInv input h) : StreamInv input (scanInternal h).2.2.2 := by
  obtain ⟨hpos, hbound, hstream⟩ := hi
  by_cases hnil : h.stream = []
  · rw [scanInternal_nil h hnil]
    exact ⟨hpos, hbound, hstream⟩
  · rcases hr : readLine h.stream with ⟨c, rest, eof⟩
    have hc : c ≠ [] := by
      have := readLine_ne_nil hnil
      rw [hr] at this
      exact this
    rw [scanInternal_cons h c rest eof hr hc]
    have happ : c ++ rest = h.stream := by
      have := readLine_append h.stream
      rw [hr] at this
      exact this
    have hrest : rest = h.stream.drop c.length := by
      rw [← happ, List.drop_left]
    have hclen : c.length ≤ h.stream.length := by
      rw [← happ]
      simp
    have htoNat : (h.offset + (c.length : Int)).toNat = h.offset.toNat + c.length := by
      omega
    have hslen : h.stream.length = input.length - h.offset.toNat := by
      rw [hstream, List.length_drop]
    refine ⟨by positivity, ?_, ?_⟩
    · simp only [htoNat]
      omega
    · simp [htoNat, hrest, hstream, List.drop_drop, Nat.add_comm]

theorem scanN_inv (input : List Nat) (h : ScannerHelper) (hi : StreamInv input h) :
    ∀ N, StreamInv input (scanN h N)
  | 0 => hi
  | N + 1 => scanN_inv input (scanInternal h).2.2.2 (scanInternal_inv input h hi) N

theorem scanOutputs_proj_eq : ∀ (n : Nat) (h1 h2 : ScannerHelper),
    h1.stream = h2.stream →
    (scanOutputs h1 n).map (fun o => (o.1, o.2.2)) =
      (scanOutputs h2 n).map (fun o => (o.1, o.2.2))
  | 0, _, _, _ => rfl
  | n + 1, h1, h2, hs => by
    obtain ⟨hrec, heof, hstr⟩ := scanInternal_stream_eq h1 h2 hs
    simp only [scanOutputs, List.map_cons, hrec, heof]
    rw [scanOutputs_proj_eq n _ _ hstr]

theorem trackerAfter_nil (bh : BatchHelper) : trackerAfter bh [] = bh := rfl

theorem trackerAfter_cons (bh : BatchHelper) (t : List Nat) (ts : List (List Nat)) :
    trackerAfter bh (t :: ts) =
      trackerAfter
        (if ((bh.IncrementItems 1).IncrementBytes (t.length : Int)).ShouldFlush then
          ((bh.IncrementItems 1).IncrementBytes (t.length : Int)).Reset
         else (bh.IncrementItems 1).IncrementBytes (t.length : Int)) ts := by
  simp only [trackerAfter, List.foldl_cons]

theorem decodeLoop_run (transform : List Nat → String) (split : SplitFunc) :
    ∀ (fuel : Nat) (off : Int) (sc : GoScanner) (bh : BatchHelper) (acc : List String),
    decodeLoop transform split fuel off sc bh acc =
      { records := acc ++ (loopTokens split fuel off sc bh).map transform,
        off := (loopFinal split fuel off sc bh).1,
        sc := (loopFinal split fuel off sc bh).2.1,
        bh := trackerAfter bh (loopTokens split fuel off sc bh),
        completed := (loopFinal split fuel off sc bh).2.2 }
  | 0, off, sc, bh, acc => by
    simp [decodeLoop, loopTokens, loopFinal, trackerAfter_nil]
  | fuel + 1, off, sc, bh, acc => by
    rcases hr : scanStep split off sc with ⟨tok?, off1, sc1⟩
    cases tok? with
    | none =>
      simp [decodeLoop, loopTokens, loopFinal, hr, trackerAfter_nil]
    | some tok =>
      by_cases hf :
          ((bh.IncrementItems 1).IncrementBytes (tok.length : Int)).ShouldFlush = true
      · simp [decodeLoop, loopTokens, loopFinal, hr, hf, trackerAfter_cons,
              trackerAfter_nil]
      · simp only [decodeLoop, loopTokens, loopFinal, hr, hf]
        rw [decodeLoop_run transform split fuel off1 sc1 _ _]
        simp [trackerAfter_cons, hf]

theorem shouldFlush_iff (sh : BatchHelper) :
    sh.ShouldFlush = true ↔
      ((sh.options.FlushBytes > 0 ∧ sh.currentBytes ≥ sh.options.FlushBytes)
        ∨ (sh.options.FlushItems > 0 ∧ sh.currentItems ≥ sh.options.FlushItems)) := by
  unfold BatchHelper.ShouldFlush
  split_ifs with h1 h2
  · simp [h1]
  · simp [h1, h2]
  · simp [h1, h2]

theorem shouldFlush_reset (sh : BatchHelper) : sh.Reset.ShouldFlush = false := by
  unfold BatchHelper.ShouldFlush BatchHelper.Reset
  split_ifs with h1 h2
  · exact absurd h1 (by simp only []; omega)
  · exact absurd h2 (by simp only []; omega)
  · rfl

theorem shouldFlush_disabled (sh : BatchHelper) (hb : sh.options.FlushBytes = 0)
    (hi : sh.options.FlushItems = 0) : sh.ShouldFlush = false := by
  unfold BatchHelper.ShouldFlush
  split_ifs with h1 h2
  · exact absurd h1 (by simp [hb])
  · exact absurd h2 (by simp [hi])
  · rfl

theorem marshal_foldl_true (sep : List Nat) :
    ∀ (records : List (List Nat)) (acc : List Nat),
    (records.foldl (fun a body => ((if a.2 then a.1 ++ sep else a.1) ++ body, true))
        (acc, true)) =
      (acc ++ sepAll sep records, true)
  | [], acc => by simp [sepAll]
  | r :: rest, acc => by
    simp only [List.foldl_cons, if_pos]
    rw [marshal_foldl_true sep rest ((acc ++ sep) ++ r)]
    simp [sepAll, List.append_assoc]

theorem marshal_foldl_false (sep : List Nat) (records : List (List Nat)) :
    (records.foldl (fun a body => ((if a.2 then a.1 ++ sep else a.1) ++ body, true))
        ([], false)).1 =
      match records with
      | [] => []
      | r :: rest => r ++ sepAll sep rest := by
  cases records with
  | nil => rfl
  | cons r rest =>
    simp only [List.foldl_cons, if_neg Bool.false_ne_true, List.nil_append]
    rw [marshal_foldl_true sep rest r]

theorem sepConcat_eq_sepAll (sep : List Nat) : ∀ records : List (List Nat),
    sepConcat sep records =
      match records with
      | [] => []
      | r :: rest => r ++ sepAll sep rest
  | [] => rfl
  | [r] => by simp [sepConcat, sepAll]
  | r :: b :: bs => by
    have ih := sepConcat_eq_sepAll sep (b :: bs)
    simp only [sepConcat, ih]
    simp [sepAll, List.append_assoc]

theorem scan_offset_aux : ∀ (N : Nat) (h : ScannerHelper),
    N ≤ (lineChunks h.stream).length →
    ((scanN h N).offset =
      h.offset + (((lineChunks h.stream).take N).map (fun c => (c.length : Int))).sum
    ∧ ∀ o ∈ scanOutputs h N, o.1.isSome = true)
  | 0, h, _ => by simp [scanN, scanOutputs]
  | N + 1, h, hN => by
    have hne : h.stream ≠ [] := by
      intro hnil
      rw [hnil] at hN
      simp [lineChunks] at hN
    rcases hr : readLine h.stream with ⟨c, rest, eof⟩
    have hc : c ≠ [] := by
      have hx := readLine_ne_nil hne
      rw [hr] at hx
      exact hx
    have hchunks : lineChunks h.stream = c :: lineChunks rest := by
      have hx := lineChunks_cons h.stream hne
      rw [hr] at hx
      exact hx
    have hscan := scanInternal_cons h c rest eof hr hc
    have hstream1 : (scanInternal h).2.2.2.stream = rest := by rw [hscan]
    have hoff1 : (scanInternal h).2.2.2.offset = h.offset + (c.length : Int) := by
      rw [hscan]
    have hN2 : N ≤ (lineChunks (scanInternal h).2.2.2.stream).length := by
      rw [hstream1]
      rw [hchunks] at hN
      simpa using hN
    obtain ⟨ihoff, ihout⟩ := scan_offset_aux N (scanInternal h).2.2.2 hN2
    constructor
    · show (scanN (scanInternal h).2.2.2 N).offset = _
      rw [ihoff, hstream1, hoff1, hchunks]
      simp only [List.take_succ_cons, List.map_cons, List.sum_cons]
      ring
    · intro o ho
      show o.1.isSome = true
      have hout1 : scanOutputs h (N + 1) =
          ((scanInternal h).1, (scanInternal h).2.1, (scanInternal h).2.2.1) ::
            scanOutputs (scanInternal h).2.2.2 N := rfl
      rw [hout1] at ho
      rcases List.mem_cons.mp ho with hhead | htail
      · rw [hhead, hscan]
        rfl
      · exact ihout o htail

/-! ### Claim theorems -/

/-- C3: for every configuration and every interleaving of
`IncrementBytes`/`IncrementItems` calls, `ShouldFlush` is true iff
(`FlushBytes > 0` and `currentBytes >= FlushBytes`) or (`FlushItems > 0`
and `currentItems >= FlushItems`); immediately after `Reset` it is false;
and with both thresholds configured to zero it never returns true from
the counter logic, whatever the interleaving. -/
theorem C3_should_flush_iff (opts : List DecoderOption) (ops : List BatchOp) :
    ((applyOps ops (NewBatchHelper opts)).ShouldFlush = true ↔
      (((NewDecoderOptions opts).FlushBytes > 0 ∧
          (applyOps ops (NewBatchHelper opts)).currentBytes ≥
            (NewDecoderOptions opts).FlushBytes)
        ∨ ((NewDecoderOptions opts).FlushItems > 0 ∧
          (applyOps ops (NewBatchHelper opts)).currentItems ≥
            (NewDecoderOptions opts).FlushItems)))
    ∧ ((applyOps ops (NewBatchHelper opts)).Reset.ShouldFlush = false)
    ∧ (∀ ops2 : List BatchOp,
        (applyOps ops2
          (NewBatchHelper (opts ++ [WithFlushBytes 0, WithFlushItems 0]))).ShouldFlush
          = false) := by
  have hopts : (applyOps ops (NewBatchHelper opts)).options = NewDecoderOptions opts := by
    rw [applyOps_options]
    rfl
  refine ⟨?_, shouldFlush_reset _, fun ops2 => ?_⟩
  · rw [shouldFlush_iff, hopts]
  · have h2 : (applyOps ops2
        (NewBatchHelper (opts ++ [WithFlushBytes 0, WithFlushItems 0]))).options =
        NewDecoderOptions (opts ++ [WithFlushBytes 0, WithFlushItems 0]) := by
      rw [applyOps_options]
      rfl
    refine shouldFlush_disabled _ ?_ ?_ <;>
      simp [h2, NewDecoderOptions, List.foldl_append, WithFlushBytes, WithFlushItems]

/-- C6: a scan at clean exhaustion (empty stream) returns no record, a
forced-true flush flag, and the end-of-stream signal, leaving the state
untouched; when the source is exhausted while bytes were read (a final
record with no trailing newline), the trimmed record is returned together
with the end-of-stream signal on the same call. -/
theorem C6_end_of_stream (h : ScannerHelper) :
    (h.stream = [] → scanInternal h = (none, true, true, h))
    ∧ (h.stream ≠ [] → (10 : Nat) ∉ h.stream →
        (scanInternal h).1 = some (trimSpace h.stream)
        ∧ (scanInternal h).2.2.1 = true) := by
  refine ⟨fun hs => scanInternal_nil h hs, fun hne hno => ?_⟩
  have hr : readLine h.stream = (h.stream, [], true) := readLine_no_newline _ hno
  rw [scanInternal_cons h h.stream [] true hr hne]
  exact ⟨rfl, rfl⟩

/-- Witness for C6 at concrete inputs: an exhausted stream and a stream
holding one undelimited record. -/
theorem C6_end_of_stream_witness :
    scanInternal ⟨NewBatchHelper [], [], 5⟩ = (none, true, true, ⟨NewBatchHelper [], [], 5⟩)
    ∧ ((scanInternal ⟨NewBatchHelper [], [97, 98], 0⟩).1 = some (trimSpace [97, 98])
        ∧ (scanInternal ⟨NewBatchHelper [], [97, 98], 0⟩).2.2.1 = true) :=
  ⟨(C6_end_of_stream ⟨NewBatchHelper [], [], 5⟩).1 rfl,
   (C6_end_of_stream ⟨NewBatchHelper [], [97, 98], 0⟩).2 (by decide) (by decide)⟩

/-- C7: marshaling any in-memory batch produces the record bodies
concatenated with the separator strictly between consecutive records
(`sepConcat`: K records carry exactly K−1 inserted separators, none
leading or trailing, and zero records produce the empty output); the
marshaler takes no threshold configuration at all. -/
theorem C7_marshal_separator (sep : List Nat) (ld : List (List (List (List Nat)))) :
    MarshalLogs sep ld = sepConcat sep (flatRecords ld) := by
  have hflat :
      ((flatRecords ld).foldl
        (fun a body => ((if a.2 then a.1 ++ sep else a.1) ++ body, true)) ([], false)) =
      (ld.foldl
        (fun acc rl =>
          rl.foldl
            (fun acc sl =>
              sl.foldl (fun a body => ((if a.2 then a.1 ++ sep else a.1) ++ body, true)) acc)
            acc)
        ([], false)) := by
    simp [flatRecords, List.foldl_flatten, List.foldl_map]
  rw [MarshalLogs, ← hflat, marshal_foldl_false, sepConcat_eq_sepAll]

/-- C8: a line consisting only of whitespace is returned as an empty
record with no end-of-stream error rather than skipped: the offset still
advances by the raw line length (trailing newline included) and the batch
tracker still sees one more item and the raw byte count before the flush
decision. -/
theorem C8_whitespace_record (h : ScannerHelper) (ws rest : List Nat)
    (hws : ∀ b ∈ ws, isAsciiSpace b = true ∧ b ≠ 10)
    (hstream : h.stream = ws ++ 10 :: rest) :
    (scanInternal h).1 = some []
    ∧ (scanInternal h).2.2.1 = false
    ∧ (scanInternal h).2.2.2.offset = h.offset + ((ws.length + 1 : Nat) : Int)
    ∧ (scanInternal h).2.2.2.batchHelper =
        (if ((h.batchHelper.IncrementBytes ((ws.length + 1 : Nat) : Int)).IncrementItems
              1).ShouldFlush then
          ((h.batchHelper.IncrementBytes ((ws.length + 1 : Nat) : Int)).IncrementItems 1).Reset
         else
          (h.batchHelper.IncrementBytes ((ws.length + 1 : Nat) : Int)).IncrementItems 1) := by
  have hno : 10 ∉ ws := fun hmem => (hws 10 hmem).2 rfl
  have hr : readLine h.stream = (ws ++ [10], rest, false) := by
    rw [hstream]
    exact readLine_newline ws rest hno
  have hlen : (ws ++ [10]).length = ws.length + 1 := by simp
  have hc : ws ++ [10] ≠ [] := by simp
  have htrim : trimSpace (ws ++ [10]) = [] := by
    apply trimSpace_all_space
    intro b hb
    rcases List.mem_append.mp hb with h1 | h2
    · exact (hws b h1).1
    · simp only [List.mem_singleton] at h2
      subst h2
      rfl
  rw [scanInternal_cons h (ws ++ [10]) rest false hr hc]
  exact ⟨by simp [htrim], rfl, by simp [hlen], by simp [hlen]⟩

/-- Witness for C8 at the concrete line `" \t\n"` followed by more data. -/
theorem C8_whitespace_record_witness :
    (scanInternal ⟨NewBatchHelper [], [32, 9, 10, 97], 4⟩).1 = some []
    ∧ (scanInternal ⟨NewBatchHelper [], [32, 9, 10, 97], 4⟩).2.2.2.offset =
        4 + ((2 + 1 : Nat) : Int) :=
  ⟨(C8_whitespace_record ⟨NewBatchHelper [], [32, 9, 10, 97], 4⟩ [32, 9] [97]
      (by decide) rfl).1,
   (C8_whitespace_record ⟨NewBatchHelper [], [32, 9, 10, 97], 4⟩ [32, 9] [97]
      (by decide) rfl).2.2.1⟩

/-- C9: the pattern-mode tokenizer yields no final empty token when the
source is exhausted with nothing buffered (input ending exactly at a
separator match), yet a separator match at position zero of non-empty
buffered data (adjacent separators) yields an empty token. -/
theorem C9_pattern_empty_tokens (find : Matcher) (off : Int) (data : List Nat)
    (e : Nat) (atEOF : Bool) (hdata : data ≠ []) (hfind : find data = some (0, e)) :
    patternSplit find off [] true = (off, 0, none)
    ∧ patternSplit find off data atEOF = (off + (e : Int), e, some []) := by
  constructor
  · simp [patternSplit]
  · simp [patternSplit, hfind, hdata]

/-- Witness for C9 with the literal separator `","` and data `",,"`. -/
theorem C9_pattern_empty_tokens_witness :
    patternSplit (findIndexLit [44]) 7 [] true = (7, 0, none)
    ∧ patternSplit (findIndexLit [44]) 7 [44, 44] false = (7 + ((1 : Nat) : Int), 1, some []) :=
  C9_pattern_empty_tokens (findIndexLit [44]) 7 [44, 44] 1 false (by decide) (by decide)

/-- C10: `ScanString` is observationally the string conversion of
`ScanBytes`: applied to the same scanner state it returns exactly the
string conversion of the bytes `ScanBytes` returns (a nil byte result
converting to the empty string), with the same flush flag, end-of-stream
signal, and successor state. -/
theorem C10_scan_string_eq_bytes (h : ScannerHelper) :
    ScanString h = (bytesToString ((ScanBytes h).1.getD []), (ScanBytes h).2) := by
  rcases hs : scanInternal h with ⟨rec, flush, eof, st⟩
  cases rec <;> simp [ScanString, ScanBytes, hs]

/-- C1: for every input and options whose initial-offset discard succeeds,
after N successful record reads the reported offset equals the configured
`InitialOffset` plus the sum of the raw byte lengths (newline included)
of the N reads from the stream, independent of the whitespace trimming
applied to the returned records (each of the N scans does return a
record). -/
theorem C1_offset_accounting (input : List Nat) (opts : List DecoderOption)
    (N : Nat) (h : ScannerHelper)
    (hc : NewScannerHelper input opts = some h)
    (hN : N ≤ (lineChunks h.stream).length) :
    (scanN h N).Offset =
      (NewDecoderOptions opts).Offset +
        (((lineChunks h.stream).take N).map (fun c => (c.length : Int))).sum
    ∧ ∀ o ∈ scanOutputs h N, o.1.isSome = true := by
  obtain ⟨_, hoff, _⟩ := newScannerHelper_inv input opts h hc
  obtain ⟨ho, hout⟩ := scan_offset_aux N h hN
  refine ⟨?_, hout⟩
  show (scanN h N).offset = _
  rw [ho, hoff]

/-- Witness for C1 on the test input `"line1\nline2\nline3\n"` with default
options and three reads. -/
theorem C1_offset_accounting_witness :
    (NewScannerHelper lines3 [] = some ⟨NewBatchHelper [], lines3, 0⟩)
    ∧ (3 ≤ (lineChunks lines3).length)
    ∧ ((scanN (⟨NewBatchHelper [], lines3, 0⟩ : ScannerHelper) 3).Offset =
        (NewDecoderOptions []).Offset +
          (((lineChunks ((⟨NewBatchHelper [], lines3, 0⟩ : ScannerHelper)).stream).take 3).map
            (fun c => (c.length : Int))).sum
      ∧ ∀ o ∈ scanOutputs (⟨NewBatchHelper [], lines3, 0⟩ : ScannerHelper) 3,
          o.1.isSome = true) :=
  ⟨by decide, by decide,
   C1_offset_accounting lines3 [] 3 ⟨NewBatchHelper [], lines3, 0⟩ (by decide) (by decide)⟩

/-- C4 (amended): resuming with `InitialOffset` equal to a previously
reported `Offset()` reproduces exactly the same subsequent records and
end-of-stream signals as continuing the original session — for any
option list of the resumed session (its flush configuration is
irrelevant to records); the fresh construction is guaranteed to
succeed. The flush-flag sequences may differ (see the counterexample),
which is the only part of the original claim that fails. -/
theorem C4_resume_records (input : List Nat) (opts opts2 : List DecoderOption)
    (K n : Nat) (h : ScannerHelper)
    (hc : NewScannerHelper input opts = some h) :
    (NewScannerHelper input (opts2 ++ [WithOffset (scanN h K).offset])).map
        (fun h2 => (scanOutputs h2 n).map (fun o => (o.1, o.2.2)))
      = some ((scanOutputs (scanN h K) n).map (fun o => (o.1, o.2.2))) := by
  obtain ⟨hinv, _, _⟩ := newScannerHelper_inv input opts h hc
  obtain ⟨hpos, hbound, hstream⟩ := scanN_inv input h hinv K
  have hOofs : (NewDecoderOptions (opts2 ++ [WithOffset (scanN h K).offset])).Offset =
      (scanN h K).offset := by
    rw [NewDecoderOptions, List.foldl_append]
    rfl
  have hle : (scanN h K).offset ≤ (input.length : Int) := by omega
  rw [newScannerHelper_some input _ (by rw [hOofs]; exact hpos) (by rw [hOofs]; exact hle)]
  show some _ = some _
  congr 1
  apply scanOutputs_proj_eq
  show input.drop (NewDecoderOptions (opts2 ++ [WithOffset (scanN h K).offset])).Offset.toNat
      = (scanN h K).stream
  rw [hOofs]
  exact hstream.symm

/-- Witness for C4 on `"a\nb\n"`: resume after one scan at the reported
offset and compare two further scans. -/
theorem C4_resume_records_witness :
    (NewScannerHelper [97, 10, 98, 10]
        ([] ++ [WithOffset (scanN (⟨NewBatchHelper [], [97, 10, 98, 10], 0⟩ :
            ScannerHelper) 1).offset])).map
        (fun h2 => (scanOutputs h2 2).map (fun o => (o.1, o.2.2)))
      = some ((scanOutputs (scanN (⟨NewBatchHelper [], [97, 10, 98, 10], 0⟩ :
            ScannerHelper) 1) 2).map (fun o => (o.1, o.2.2))) :=
  C4_resume_records [97, 10, 98, 10] [] [] 1 2
    ⟨NewBatchHelper [], [97, 10, 98, 10], 0⟩ (by decide)

/-- Counterexample to C4 as stated: with `FlushItems = 2` over
`"a\nb\nc\nd\n"`, the original session reports offset 2 after one scan and
its next scan flushes (second item), while the session resumed at offset 2
with the same options starts from fresh counters and its first scan does
not flush — the flush-flag sequences differ. -/
theorem C4_resume_flush_flag_cex :
    ((NewScannerHelper [97, 10, 98, 10, 99, 10, 100, 10] [WithFlushItems 2]).map
        (fun h => (scanN h 1).offset) = some 2)
    ∧ ((NewScannerHelper [97, 10, 98, 10, 99, 10, 100, 10] [WithFlushItems 2]).map
        (fun h => (scanOutputs (scanN h 1) 1).map (fun o => o.2.1)) = some [true])
    ∧ ((NewScannerHelper [97, 10, 98, 10, 99, 10, 100, 10]
          ([WithFlushItems 2] ++ [WithOffset 2])).map
        (fun h => (scanOutputs h 1).map (fun o => o.2.1)) = some [false])
    ∧ ((NewScannerHelper [97, 10, 98, 10, 99, 10, 100, 10] [WithFlushItems 2]).map
        (fun h => (scanOutputs (scanN h 1) 1).map (fun o => (o.1, o.2.2))) =
       (NewScannerHelper [97, 10, 98, 10, 99, 10, 100, 10]
          ([WithFlushItems 2] ++ [WithOffset 2])).map
        (fun h => (scanOutputs h 1).map (fun o => (o.1, o.2.2)))) :=
  ⟨by decide, by decide, by decide, by decide⟩

/-- C5 (amended): in every decode call of the custom-delimiter decoder, a
record is appended to the output batch for EVERY token the tokenizer
yields — empty tokens included — as the transformation of that token, and
the tracker is incremented by one item and the token's pre-transformation
byte length per token, resetting exactly when the flush check fires. -/
theorem C5_record_per_token (transform : List Nat → String) (split : SplitFunc)
    (fuel : Nat) (off : Int) (sc : GoScanner) (bh : BatchHelper) :
    (decodeF transform split fuel off sc bh).1.records =
      (loopTokens split fuel off sc bh).map transform
    ∧ (decodeF transform split fuel off sc bh).1.bh =
      trackerAfter bh (loopTokens split fuel off sc bh) := by
  show ((decodeLoop transform split fuel off sc bh []).records = _)
    ∧ ((decodeLoop transform split fuel off sc bh []).bh = _)
  rw [decodeLoop_run]
  exact ⟨by simp, rfl⟩

/-- Counterexample to C5 as stated: decoding the one-byte input `","` with
separator `","` produces a single empty token, and a record IS appended
for it (the batch holds one record, the transformation of the empty
token), where the claim requires empty tokens to produce no record. -/
theorem C5_empty_token_cex :
    loopTokens (patternSplit (findIndexLit [44])) 10 0 ⟨[44], false, false⟩
        (NewBatchHelper []) = [[]]
    ∧ (decodeF bytesToString (patternSplit (findIndexLit [44])) 10 0
        ⟨[44], false, false⟩ (NewBatchHelper [])).1.records = [bytesToString []]
    ∧ (decodeF bytesToString (patternSplit (findIndexLit [44])) 10 0
        ⟨[44], false, false⟩ (NewBatchHelper [])).1.records.length = 1 :=
  ⟨by decide, by decide, by decide⟩

set_option maxRecDepth 100000 in
/-- C2 fails on the code (code bug): `UnmarshalLogs` passes only
`WithOffset(0)` and `WithFlushBytes(0)` to the decoder, leaving
`FlushItems` at its default of 1000 instead of disabling both thresholds.
On a buffer of 1001 newline-terminated records the single `DecodeLogs`
call it makes flushes after 1000 records, so `UnmarshalLogs` returns a
1000-record batch while one whole record (`"a\n"`) is still unread in the
scanner — the payload is not delivered as one complete batch. -/
theorem C2_unmarshal_truncation :
    (NewBatchHelper [WithOffset 0, WithFlushBytes 0]).options.FlushItems = 1000
    ∧ ((UnmarshalLogs (some (findIndexLit [10])) bytesToString 1100 recs1001).1.map
        List.length = some 1000)
    ∧ (UnmarshalLogs (some (findIndexLit [10])) bytesToString 1100 recs1001).2.sc.rem
        = [97, 10] := by
  have hrun := decodeLoop_run bytesToString (patternSplit (findIndexLit [10])) 1100 0
      ⟨recs1001, false, false⟩ (NewBatchHelper [WithOffset 0, WithFlushBytes 0]) []
  have htoks :
      (loopTokens (patternSplit (findIndexLit [10])) 1100 0 ⟨recs1001, false, false⟩
        (NewBatchHelper [WithOffset 0, WithFlushBytes 0])).length = 1000 := by decide
  have hrem :
      (loopFinal (patternSplit (findIndexLit [10])) 1100 0 ⟨recs1001, false, false⟩
        (NewBatchHelper [WithOffset 0, WithFlushBytes 0])).2.1.rem = [97, 10] := by decide
  rcases htl : loopTokens (patternSplit (findIndexLit [10])) 1100 0 ⟨recs1001, false, false⟩
      (NewBatchHelper [WithOffset 0, WithFlushBytes 0]) with _ | ⟨t, ts⟩
  · rw [htl] at htoks
    simp at htoks
  · rw [htl] at htoks hrun
    refine ⟨by decide, ?_, ?_⟩
    · show (Option.map List.length
        (UnmarshalLogs (some (findIndexLit [10])) bytesToString 1100 recs1001).1) = some 1000
      simp only [UnmarshalLogs, decodeF, hrun, List.nil_append, List.map_cons,
        List.isEmpty_cons, Bool.false_eq_true, if_false, Option.map_some]
      have hlen : (bytesToString t :: List.map bytesToString ts).length = 1000 := by
        simpa using htoks
      simp [hlen]
    · simp only [UnmarshalLogs, decodeF, hrun]
      split <;> exact hrem

end StreamCore

